import Mathlib

/-!
Verification of the LC-4 opcode decode / dispatch / execute core.

Shallow embedding of `src/hardware/instructions/opcode.rs` (the opcode
enumeration `OpCode`, the decoder `OpCode.get` / `extract_op_code`, and the
dispatcher `execute_instruction`), together with spec-modelled definitions for
the parts of the machine (register file, memory, instruction handlers and the
sign-extension primitive) whose source modules are not part of the sources.

Machine words are modelled as `Nat` with explicit `% 65536` masking where the
16-bit width matters.
-/

set_option maxHeartbeats 1000000

namespace LC4

/-- The closed enumeration of the 16 LC-3 opcodes, with the constructor order
and discriminants of the Rust `enum OpCode` (`Br = 0`, …, `Trap = 15`). -/
inductive OpCode where
  | Br
  | Add
  | Ld
  | St
  | Jsr
  | And
  | Ldr
  | Str
  | Rti
  | Not
  | Ldi
  | Sti
  | Jmp
  | Res
  | Lea
  | Trap
deriving DecidableEq

/-- The numeric discriminant of each `OpCode` tag, as declared in the Rust
enum (`Br = 0`, `Add = 1`, …, `Trap = 15`). -/
def OpCode.toNat : OpCode → Nat
  | .Br => 0
  | .Add => 1
  | .Ld => 2
  | .St => 3
  | .Jsr => 4
  | .And => 5
  | .Ldr => 6
  | .Str => 7
  | .Rti => 8
  | .Not => 9
  | .Ldi => 10
  | .Sti => 11
  | .Jmp => 12
  | .Res => 13
  | .Lea => 14
  | .Trap => 15

/-- Embedding of `OpCode::get`: `Some(tag)` for 0–15, `None` otherwise. -/
def OpCode.get (op_code : Nat) : Option OpCode :=
  match op_code with
  | 0 => some .Br
  | 1 => some .Add
  | 2 => some .Ld
  | 3 => some .St
  | 4 => some .Jsr
  | 5 => some .And
  | 6 => some .Ldr
  | 7 => some .Str
  | 8 => some .Rti
  | 9 => some .Not
  | 10 => some .Ldi
  | 11 => some .Sti
  | 12 => some .Jmp
  | 13 => some .Res
  | 14 => some .Lea
  | 15 => some .Trap
  | _ => none

/-- Embedding of `extract_op_code`: decode the top 4 bits of the instruction
word by shifting right 12 positions (the source applies no `& 0xF` mask). -/
def extract_op_code (instruction : Nat) : Option OpCode :=
  OpCode.get (instruction >>> 12)

/-- The per-opcode handler routines the dispatcher delegates to
(`super::add::add`, …, `super::trap::trap` in the source). Their modules are
not part of the sources, so they are parameters here: `add`, `and`, `not`,
`br`, `jmp`, `jsr`, `lea` receive only the registers, while `ld`, `ldi`,
`ldr`, `st`, `sti`, `str`, `trap` also receive the memory, exactly as in the
dispatcher's call sites. -/
structure Handlers (R M : Type) where
  add : Nat → R → R
  and : Nat → R → R
  not : Nat → R → R
  br : Nat → R → R
  jmp : Nat → R → R
  jsr : Nat → R → R
  lea : Nat → R → R
  ld : Nat → R → M → R × M
  ldi : Nat → R → M → R × M
  ldr : Nat → R → M → R × M
  st : Nat → R → M → R × M
  sti : Nat → R → M → R × M
  str : Nat → R → M → R × M
  trap : Nat → R → M → R × M

/-- Embedding of the dispatcher `execute_instruction`: extract the opcode and
match on it, invoking the corresponding handler; the wildcard arm (`None`,
`Rti`, `Res`) does nothing. A handler called without mutable access to the
memory leaves the memory component unchanged. -/
def execute_instruction {R M : Type} (h : Handlers R M) (instr : Nat)
    (registers : R) (memory : M) : R × M :=
  match extract_op_code instr with
  | some .Add => (h.add instr registers, memory)
  | some .And => (h.and instr registers, memory)
  | some .Not => (h.not instr registers, memory)
  | some .Br => (h.br instr registers, memory)
  | some .Jmp => (h.jmp instr registers, memory)
  | some .Jsr => (h.jsr instr registers, memory)
  | some .Ld => h.ld instr registers memory
  | some .Ldi => h.ldi instr registers memory
  | some .Ldr => h.ldr instr registers memory
  | some .Lea => (h.lea instr registers, memory)
  | some .St => h.st instr registers memory
  | some .Sti => h.sti instr registers memory
  | some .Str => h.str instr registers memory
  | some .Trap => h.trap instr registers memory
  | _ => (registers, memory)

/-- A concrete handler pack over `R = M = Nat`, used to instantiate the
dispatcher theorems at concrete inputs. -/
def idHandlers : Handlers Nat Nat where
  add := fun i r => i + r
  and := fun i r => i + r + 1
  not := fun i r => i + r + 2
  br := fun i r => i + r + 3
  jmp := fun i r => i + r + 4
  jsr := fun i r => i + r + 5
  lea := fun i r => i + r + 6
  ld := fun i r m => (i + r, m + 1)
  ldi := fun i r m => (i + r, m + 2)
  ldr := fun i r m => (i + r, m + 3)
  st := fun i r m => (i + r, m + 4)
  sti := fun i r m => (i + r, m + 5)
  str := fun i r m => (i + r, m + 6)
  trap := fun i r m => (i + r, m + 7)

/-! Spec-modelled machine.

The register file, the memory and the fourteen handler modules are not among
the sources; the definitions below are modelled from the spec (§3, §4.1, §4.3,
§6) so that the claims about them can be stated and settled. -/

/-- `bits w lo len` are the `len` bits of the word `w` starting at bit `lo`. -/
def bits (w lo len : Nat) : Nat := (w >>> lo) % 2 ^ len

/-- The 3-bit register selector occupying bits `lo+2 … lo` of the word. -/
def regSel (w lo : Nat) : Fin 8 := ⟨(w >>> lo) % 8, Nat.mod_lt _ (by decide)⟩

/-- Modelled from the spec: the shared sign-extension primitive (§4.1) of the
handler modules absent from the sources. Given an `n`-bit two's-complement
field, if bit `n − 1` is 1 the value is OR-ed with `0xFFFF <<< n` (as a 16-bit
quantity, hence the final mask); otherwise it is left unchanged. -/
def sign_extend (x bit_count : Nat) : Nat :=
  if Nat.testBit x (bit_count - 1) then (x ||| (0xFFFF <<< bit_count)) % 65536
  else x

/-- Modelled from the spec: the condition-flag register holds exactly one of
negative / zero / positive (§3). -/
inductive Flag where
  | Negative
  | Zero
  | Positive
deriving DecidableEq

/-- Modelled from the spec: the register file — 8 general-purpose registers,
a program counter and the condition-flag register (§3). The source module
`hardware::Registers` is not among the sources. -/
structure Registers where
  gp : Fin 8 → Nat
  pc : Nat
  cond : Flag

/-- Write a 16-bit value (masked) into a general-purpose register. -/
def Registers.write (r : Registers) (i : Fin 8) (v : Nat) : Registers :=
  { r with gp := Function.update r.gp i (v % 65536) }

/-- Modelled from the spec: the flag-update rule (§4.3) — sign bit set →
Negative, zero → Zero, otherwise Positive. -/
def update_flags (v : Nat) : Flag :=
  if Nat.testBit v 15 then .Negative
  else if v = 0 then .Zero
  else .Positive

/-- Set the condition flags from a freshly written 16-bit value. -/
def setcc (r : Registers) (v : Nat) : Registers := { r with cond := update_flags v }

/-- Read the 16-bit memory cell at (16-bit truncated) address `a`. -/
def memRead (m : Nat → Nat) (a : Nat) : Nat := m (a % 65536) % 65536

/-- Write the 16-bit memory cell at (16-bit truncated) address `a`. -/
def memWrite (m : Nat → Nat) (a v : Nat) : Nat → Nat :=
  Function.update m (a % 65536) (v % 65536)

namespace Instr

/-- Modelled from the spec: Add (§4.3) — dest = src1 + (src2 or sign-extended
imm5), two's-complement wraparound; flags updated from dest. Fields per §4.1:
dest bits 11–9, src1 bits 8–6, immediate-mode bit 5, src2 bits 2–0 or imm5
bits 4–0. The source module `super::add` is not among the sources. -/
def add (instr : Nat) (r : Registers) : Registers :=
  let op2 := if Nat.testBit instr 5 then sign_extend (bits instr 0 5) 5
             else r.gp (regSel instr 0) % 65536
  let v := (r.gp (regSel instr 6) + op2) % 65536
  setcc (r.write (regSel instr 9) v) v

/-- Modelled from the spec: And (§4.3) — dest = src1 & (src2 or sign-extended
imm5) bitwise; flags updated. The source module `super::and` is not among the
sources. -/
def and (instr : Nat) (r : Registers) : Registers :=
  let op2 := if Nat.testBit instr 5 then sign_extend (bits instr 0 5) 5
             else r.gp (regSel instr 0) % 65536
  let v := (r.gp (regSel instr 6) % 65536) &&& op2
  setcc (r.write (regSel instr 9) v) v

/-- Modelled from the spec: Not (§4.3) — dest = bitwise complement of src
(bits 8–6); flags updated. The source module `super::not` is not among the
sources. -/
def not (instr : Nat) (r : Registers) : Registers :=
  let v := (r.gp (regSel instr 6) % 65536) ^^^ 65535
  setcc (r.write (regSel instr 9) v) v

/-- Modelled from the spec: Br (§4.3) — if the condition flag matches any of
the instruction's n/z/p bits (bits 11/10/9), PC += sign-extended 9-bit offset;
else no-op. The source module `super::br` is not among the sources. -/
def br (instr : Nat) (r : Registers) : Registers :=
  let taken :=
    (Nat.testBit instr 11 && decide (r.cond = Flag.Negative)) ||
    (Nat.testBit instr 10 && decide (r.cond = Flag.Zero)) ||
    (Nat.testBit instr 9 && decide (r.cond = Flag.Positive))
  if taken then { r with pc := (r.pc + sign_extend (bits instr 0 9) 9) % 65536 }
  else r

/-- Modelled from the spec: Jmp (§4.3) — PC = value in base register
(bits 8–6). The source module `super::jmp` is not among the sources. -/
def jmp (instr : Nat) (r : Registers) : Registers :=
  { r with pc := r.gp (regSel instr 6) % 65536 }

/-- Modelled from the spec: Jsr (§4.3) — save the current PC into the link
register R7, then PC = base register's value (mode bit 11 clear) or
PC + sign-extended 11-bit offset (mode bit 11 set). The source module
`super::jsr` is not among the sources. -/
def jsr (instr : Nat) (r : Registers) : Registers :=
  let target :=
    if Nat.testBit instr 11 then (r.pc + sign_extend (bits instr 0 11) 11) % 65536
    else r.gp (regSel instr 6) % 65536
  { r.write 7 r.pc with pc := target }

/-- Modelled from the spec: Ld (§4.3) — dest = memory[PC + sign-extended
9-bit offset]; flags updated. The source module `super::ld` is not among the
sources. -/
def ld (instr : Nat) (r : Registers) (m : Nat → Nat) : Registers :=
  let v := memRead m (r.pc + sign_extend (bits instr 0 9) 9)
  setcc (r.write (regSel instr 9) v) v

/-- Modelled from the spec: Ldi (§4.3) — addr = memory[PC + sign-extended
9-bit offset]; dest = memory[addr]; flags updated. The source module
`super::ldi` is not among the sources. -/
def ldi (instr : Nat) (r : Registers) (m : Nat → Nat) : Registers :=
  let v := memRead m (memRead m (r.pc + sign_extend (bits instr 0 9) 9))
  setcc (r.write (regSel instr 9) v) v

/-- Modelled from the spec: Ldr (§4.3) — dest = memory[base register +
sign-extended 6-bit offset]; flags updated. The source module `super::ldr` is
not among the sources. -/
def ldr (instr : Nat) (r : Registers) (m : Nat → Nat) : Registers :=
  let v := memRead m (r.gp (regSel instr 6) + sign_extend (bits instr 0 6) 6)
  setcc (r.write (regSel instr 9) v) v

/-- Modelled from the spec: Lea (§4.3) — dest = PC + sign-extended 9-bit
offset (the address, not memory contents); flags updated. The source module
`super::lea` is not among the sources. -/
def lea (instr : Nat) (r : Registers) : Registers :=
  let v := (r.pc + sign_extend (bits instr 0 9) 9) % 65536
  setcc (r.write (regSel instr 9) v) v

/-- Modelled from the spec: St (§4.3) — memory[PC + sign-extended 9-bit
offset] = src register (bits 11–9). The source module `super::st` is not
among the sources. -/
def st (instr : Nat) (r : Registers) (m : Nat → Nat) : Nat → Nat :=
  memWrite m (r.pc + sign_extend (bits instr 0 9) 9) (r.gp (regSel instr 9))

/-- Modelled from the spec: Sti (§4.3) — addr = memory[PC + sign-extended
9-bit offset]; memory[addr] = src register value. The source module
`super::sti` is not among the sources. -/
def sti (instr : Nat) (r : Registers) (m : Nat → Nat) : Nat → Nat :=
  memWrite m (memRead m (r.pc + sign_extend (bits instr 0 9) 9))
    (r.gp (regSel instr 9))

/-- Modelled from the spec: Str (§4.3) — memory[base register + sign-extended
6-bit offset] = src register value. The source module `super::str` is not
among the sources. -/
def str (instr : Nat) (r : Registers) (m : Nat → Nat) : Nat → Nat :=
  memWrite m (r.gp (regSel instr 6) + sign_extend (bits instr 0 6) 6)
    (r.gp (regSel instr 9))

end Instr

/-- Modelled from the spec: the whole machine state — register file, memory,
pending input character, console output, and the halted signal surfaced by
the HALT trap (§3, §5, §6). -/
structure Machine where
  regs : Registers
  mem : Nat → Nat
  input : Nat
  output : List Nat
  halted : Bool

/-- Read a null-terminated string of one character per word (fuelled by the
address-space size). Used by the PUTS trap routine (§6). -/
def readString (m : Nat → Nat) (a : Nat) : Nat → List Nat
  | 0 => []
  | fuel + 1 =>
    let c := memRead m a
    if c = 0 then [] else c :: readString m (a + 1) fuel

/-- Read a null-terminated string of two packed characters per word, low byte
first. Used by the PUTSP trap routine (§6). -/
def readStringPacked (m : Nat → Nat) (a : Nat) : Nat → List Nat
  | 0 => []
  | fuel + 1 =>
    let c := memRead m a
    if c = 0 then []
    else if c / 256 = 0 then [c % 256]
    else c % 256 :: c / 256 :: readStringPacked m (a + 1) fuel

/-- Modelled from the spec: Trap (§4.3, §6) — save the return address into R7,
then dispatch on the 8-bit trap vector: GETC/IN read one input character into
R0, OUT writes R0's low byte, PUTS/PUTSP write a null-terminated string, HALT
signals termination. The source module `super::trap` is not among the
sources. -/
def Instr.trap (instr : Nat) (s : Machine) : Machine :=
  let vect := bits instr 0 8
  let r2 := s.regs.write 7 s.regs.pc
  if vect = 32 then { s with regs := r2.write 0 (s.input % 256) }
  else if vect = 33 then { s with regs := r2, output := s.output ++ [s.regs.gp 0 % 256] }
  else if vect = 34 then
    { s with regs := r2, output := s.output ++ readString s.mem (s.regs.gp 0) 65536 }
  else if vect = 35 then { s with regs := r2.write 0 (s.input % 256) }
  else if vect = 36 then
    { s with regs := r2, output := s.output ++ readStringPacked s.mem (s.regs.gp 0) 65536 }
  else if vect = 37 then { s with regs := r2, halted := true }
  else { s with regs := r2 }

/-- Modelled from the spec: one decode-dispatch-execute step of the whole
machine, instantiating the dispatcher with the spec-modelled handlers. -/
def execInstr (instr : Nat) (s : Machine) : Machine :=
  match extract_op_code instr with
  | some .Add => { s with regs := Instr.add instr s.regs }
  | some .And => { s with regs := Instr.and instr s.regs }
  | some .Not => { s with regs := Instr.not instr s.regs }
  | some .Br => { s with regs := Instr.br instr s.regs }
  | some .Jmp => { s with regs := Instr.jmp instr s.regs }
  | some .Jsr => { s with regs := Instr.jsr instr s.regs }
  | some .Ld => { s with regs := Instr.ld instr s.regs s.mem }
  | some .Ldi => { s with regs := Instr.ldi instr s.regs s.mem }
  | some .Ldr => { s with regs := Instr.ldr instr s.regs s.mem }
  | some .Lea => { s with regs := Instr.lea instr s.regs }
  | some .St => { s with mem := Instr.st instr s.regs s.mem }
  | some .Sti => { s with mem := Instr.sti instr s.regs s.mem }
  | some .Str => { s with mem := Instr.str instr s.regs s.mem }
  | some .Trap => Instr.trap instr s
  | _ => s

/-- The instructions that set the condition flags (§3): Add, And, Not, Ld,
Ldi, Ldr, Lea. -/
def flagSetting : OpCode → Bool
  | .Add | .And | .Not | .Ld | .Ldi | .Ldr | .Lea => true
  | _ => false

/-- A concrete machine state (all registers and memory zero, flag Zero) used
to instantiate theorems at concrete inputs. -/
def machine0 : Machine :=
  ⟨⟨fun _ => 0, 0, Flag.Zero⟩, fun _ => 0, 65, [], false⟩

/-! Theorems. -/

/-- Claim C1: for every 4-bit value (presented as the discriminant of an OpCode
tag, `Br = 0`, …, `Trap = 15`), decoding a 16-bit word whose top 4 bits equal
that value yields the corresponding tag; in particular the word 16384
(`0b0100_000000000000`) decodes to `Jsr`. -/
theorem decode_top_bits :
    (∀ (w : Nat) (t : OpCode), w < 65536 → w >>> 12 = OpCode.toNat t →
      extract_op_code w = some t) ∧
    extract_op_code 16384 = some OpCode.Jsr := by
  refine ⟨fun w t _ h => ?_, by decide⟩
  cases t <;> simp [OpCode.toNat] at h <;> simp [extract_op_code, h, OpCode.get]

/-- Witness for `decode_top_bits` at the word 4096 (top 4 bits = 1 = Add). -/
theorem decode_top_bits_witness : extract_op_code 4096 = some OpCode.Add :=
  decode_top_bits.1 4096 OpCode.Add (by decide) (by decide)

/-- Claim C3: for every 16-bit word, `extract_op_code` returns `some` tag — the
`none` branch of the decoder is unreachable even without a `& 0xF` mask,
because the shift by 12 bounds the value by 16. -/
theorem extract_op_code_total (w : Nat) (hw : w < 65536) :
    ∃ op : OpCode, extract_op_code w = some op := by
  show ∃ op : OpCode, OpCode.get (w >>> 12) = some op
  have h : w >>> 12 < 16 := by
    simp only [Nat.shiftRight_eq_div_pow]
    omega
  set k := w >>> 12 with hk
  interval_cases k <;> exact ⟨_, rfl⟩

/-- Witness for `extract_op_code_total` at the word 65535. -/
theorem extract_op_code_total_witness : ∃ op : OpCode, extract_op_code 65535 = some op :=
  extract_op_code_total 65535 (by decide)

/-- Claim C5: `OpCode.get` returns `some` tag for every input between 0 and 15
and `none` for every input greater than 15. -/
theorem get_some_iff_le_15 :
    (∀ v : Nat, v ≤ 15 → ∃ t : OpCode, OpCode.get v = some t) ∧
    (∀ v : Nat, 15 < v → OpCode.get v = none) := by
  constructor
  · intro v hv
    interval_cases v <;> exact ⟨_, rfl⟩
  · intro v hv
    obtain ⟨k, rfl⟩ : ∃ k, v = k + 16 := ⟨v - 16, by omega⟩
    rfl

/-- Witness for `get_some_iff_le_15` at 15 (defined) and 16 (no match). -/
theorem get_some_iff_le_15_witness :
    (∃ t : OpCode, OpCode.get 15 = some t) ∧ OpCode.get 16 = none :=
  ⟨get_some_iff_le_15.1 15 (by decide), get_some_iff_le_15.2 16 (by decide)⟩

/-- Claim C9: decode round-trips the enumeration — `OpCode.get` applied to a
tag's numeric discriminant returns that tag, and conversely every value 0–15
is decoded to the unique tag whose discriminant it is, so `OpCode.get`
restricted to 0–15 is a bijection onto the 16 tags. -/
theorem get_toNat_roundtrip :
    (∀ t : OpCode, OpCode.get (OpCode.toNat t) = some t) ∧
    (∀ v : Nat, v < 16 → ∃ t : OpCode, OpCode.get v = some t ∧ OpCode.toNat t = v) := by
  constructor
  · intro t
    cases t <;> rfl
  · intro v hv
    interval_cases v <;> exact ⟨_, rfl, rfl⟩

/-- Witness for `get_toNat_roundtrip` at the discriminant 14 (Lea). -/
theorem get_toNat_roundtrip_witness :
    ∃ t : OpCode, OpCode.get 14 = some t ∧ OpCode.toNat t = 14 :=
  get_toNat_roundtrip.2 14 (by decide)

/-- Claim C10: opcode decoding depends only on the top 4 bits — two 16-bit
words that agree on bits 15–12 decode to the same result, whatever their low
12 bits. -/
theorem decode_depends_only_on_top_bits (w1 w2 : Nat)
    (h1 : w1 < 65536) (h2 : w2 < 65536) (h : w1 >>> 12 = w2 >>> 12) :
    extract_op_code w1 = extract_op_code w2 := by
  simp only [extract_op_code, h]

/-- Witness for `decode_depends_only_on_top_bits` at 4097 and 8190 ⊕ low
bits — two Add words with different parameter bits. -/
theorem decode_depends_only_on_top_bits_witness :
    extract_op_code 4097 = extract_op_code 8191 ∨ extract_op_code 4097 = extract_op_code 5000 :=
  Or.inr (decode_depends_only_on_top_bits 4097 5000 (by decide) (by decide) (by decide))

/-- Claim C2: dispatching a word whose opcode is Rti or Res is a silent no-op —
whatever the handlers do, the registers and the memory come back unchanged
and no error is signalled (the dispatcher has no error channel). -/
theorem reserved_opcode_noop {R M : Type} (h : Handlers R M) (instr : Nat)
    (r : R) (m : M)
    (hres : extract_op_code instr = some OpCode.Rti ∨
      extract_op_code instr = some OpCode.Res) :
    execute_instruction h instr r m = (r, m) := by
  rcases hres with hc | hc <;> simp [execute_instruction, hc]

/-- Witness for `reserved_opcode_noop` at the word 32768 (opcode 8 = Rti). -/
theorem reserved_opcode_noop_witness :
    execute_instruction idHandlers 32768 3 4 = (3, 4) :=
  reserved_opcode_noop idHandlers 32768 3 4 (Or.inl (by decide))

/-- Claim C4: for each of the 14 implemented opcodes, the dispatcher invokes
exactly the corresponding handler, and its whole effect on registers and
memory is that single handler call (memory is returned untouched for the
handlers that are not given it). -/
theorem dispatch_single_handler {R M : Type} (h : Handlers R M) (instr : Nat)
    (r : R) (m : M) :
    (extract_op_code instr = some OpCode.Add →
      execute_instruction h instr r m = (h.add instr r, m)) ∧
    (extract_op_code instr = some OpCode.And →
      execute_instruction h instr r m = (h.and instr r, m)) ∧
    (extract_op_code instr = some OpCode.Not →
      execute_instruction h instr r m = (h.not instr r, m)) ∧
    (extract_op_code instr = some OpCode.Br →
      execute_instruction h instr r m = (h.br instr r, m)) ∧
    (extract_op_code instr = some OpCode.Jmp →
      execute_instruction h instr r m = (h.jmp instr r, m)) ∧
    (extract_op_code instr = some OpCode.Jsr →
      execute_instruction h instr r m = (h.jsr instr r, m)) ∧
    (extract_op_code instr = some OpCode.Lea →
      execute_instruction h instr r m = (h.lea instr r, m)) ∧
    (extract_op_code instr = some OpCode.Ld →
      execute_instruction h instr r m = h.ld instr r m) ∧
    (extract_op_code instr = some OpCode.Ldi →
      execute_instruction h instr r m = h.ldi instr r m) ∧
    (extract_op_code instr = some OpCode.Ldr →
      execute_instruction h instr r m = h.ldr instr r m) ∧
    (extract_op_code instr = some OpCode.St →
      execute_instruction h instr r m = h.st instr r m) ∧
    (extract_op_code instr = some OpCode.Sti →
      execute_instruction h instr r m = h.sti instr r m) ∧
    (extract_op_code instr = some OpCode.Str →
      execute_instruction h instr r m = h.str instr r m) ∧
    (extract_op_code instr = some OpCode.Trap →
      execute_instruction h instr r m = h.trap instr r m) := by
  refine ⟨?_, ?_, ?_, ?_, ?_, ?_, ?_, ?_, ?_, ?_, ?_, ?_, ?_, ?_⟩ <;>
    intro hc <;> simp [execute_instruction, hc]

/-- Witness for `dispatch_single_handler` at the word 4096 (opcode Add). -/
theorem dispatch_single_handler_witness :
    execute_instruction idHandlers 4096 5 6 = (idHandlers.add 4096 5, 6) :=
  (dispatch_single_handler idHandlers 4096 5 6).1 (by decide)

/-- Claim C6: words whose opcode is Add, And, Not, Br, Jmp, Jsr or Lea are
dispatched to handlers that are not given the memory, so the memory component
of the result is unchanged whatever those handlers do. -/
theorem register_opcodes_preserve_memory {R M : Type} (h : Handlers R M)
    (instr : Nat) (r : R) (m : M)
    (hop : extract_op_code instr = some OpCode.Add ∨
      extract_op_code instr = some OpCode.And ∨
      extract_op_code instr = some OpCode.Not ∨
      extract_op_code instr = some OpCode.Br ∨
      extract_op_code instr = some OpCode.Jmp ∨
      extract_op_code instr = some OpCode.Jsr ∨
      extract_op_code instr = some OpCode.Lea) :
    (execute_instruction h instr r m).2 = m := by
  rcases hop with hc | hc | hc | hc | hc | hc | hc <;>
    simp [execute_instruction, hc]

/-- Witness for `register_opcodes_preserve_memory` at the word 36864
(opcode 9 = Not). -/
theorem register_opcodes_preserve_memory_witness :
    (execute_instruction idHandlers 36864 5 6).2 = 6 :=
  register_opcodes_preserve_memory idHandlers 36864 5 6
    (Or.inr (Or.inr (Or.inl (by decide))))

/-- Claim C8: the shared sign-extension primitive — if bit `n − 1` of the field
is 1 the result is the field OR-ed with `0xFFFF <<< n` (as a 16-bit value),
otherwise the field unchanged; in particular the 5-bit field `0b10000`
extends to 65520 (= `0xFFF0`, the 16-bit two's-complement encoding of −16),
and any 9-bit field whose bit 8 is 0 extends to itself. -/
theorem sign_extend_spec :
    (∀ x n : Nat, Nat.testBit x (n - 1) = true →
      sign_extend x n = (x ||| (65535 <<< n)) % 65536) ∧
    (∀ x n : Nat, Nat.testBit x (n - 1) = false → sign_extend x n = x) ∧
    sign_extend 16 5 = 65536 - 16 ∧
    (∀ x : Nat, x < 512 → Nat.testBit x 8 = false → sign_extend x 9 = x) := by
  refine ⟨fun x n hbit => ?_, fun x n hbit => ?_, by decide, fun x _ hbit => ?_⟩
  · simp [sign_extend, hbit]
  · simp [sign_extend, hbit]
  · simp [sign_extend, hbit]

/-- Witness for `sign_extend_spec`: the 9-bit field 5 (bit 8 clear) extends
to itself. -/
theorem sign_extend_spec_witness : sign_extend 5 9 = 5 :=
  sign_extend_spec.2.2.2 5 (by decide) (by decide)

/-- Every flag value is Negative, Zero or Positive. -/
theorem flag_mem (f : Flag) : f = Flag.Negative ∨ f = Flag.Zero ∨ f = Flag.Positive := by
  cases f
  · exact Or.inl rfl
  · exact Or.inr (Or.inl rfl)
  · exact Or.inr (Or.inr rfl)

/-- A flag-setting write `setcc (r.write i v) v` of a 16-bit value leaves in
the condition register exactly the sign classification of the value now held
in register `i`. -/
theorem setcc_write_spec (r : Registers) (i : Fin 8) (v : Nat) (hv : v < 65536) :
    (setcc (r.write i v) v).cond =
      (if Nat.testBit ((setcc (r.write i v) v).gp i) 15 then Flag.Negative
       else if (setcc (r.write i v) v).gp i = 0 then Flag.Zero
       else Flag.Positive) := by
  have hgp : (setcc (r.write i v) v).gp i = v := by
    simp [setcc, Registers.write, Nat.mod_eq_of_lt hv]
  rw [hgp]
  rfl

/-- Masked conjunction is a 16-bit value. -/
theorem and_mask_lt (x y : Nat) : x % 65536 &&& y < 65536 :=
  lt_of_le_of_lt Nat.and_le_left (Nat.mod_lt _ (by norm_num))

/-- 16-bit complement of a masked value is a 16-bit value. -/
theorem xor_mask_lt (x : Nat) : x % 65536 ^^^ 65535 < 65536 := by
  have h1 : x % 65536 < 2 ^ 16 :=
    lt_of_lt_of_le (Nat.mod_lt _ (by norm_num)) (by norm_num)
  have h2 : (65535 : Nat) < 2 ^ 16 := by norm_num
  exact lt_of_lt_of_le (Nat.xor_lt_two_pow h1 h2) (by norm_num)

/-- Add leaves in the condition register the sign of the written value. -/
theorem add_flag (instr : Nat) (r : Registers) :
    (Instr.add instr r).cond =
      (if Nat.testBit ((Instr.add instr r).gp (regSel instr 9)) 15 then Flag.Negative
       else if (Instr.add instr r).gp (regSel instr 9) = 0 then Flag.Zero
       else Flag.Positive) := by
  simp only [Instr.add]
  exact setcc_write_spec _ _ _ (Nat.mod_lt _ (by norm_num))

/-- And leaves in the condition register the sign of the written value. -/
theorem and_flag (instr : Nat) (r : Registers) :
    (Instr.and instr r).cond =
      (if Nat.testBit ((Instr.and instr r).gp (regSel instr 9)) 15 then Flag.Negative
       else if (Instr.and instr r).gp (regSel instr 9) = 0 then Flag.Zero
       else Flag.Positive) := by
  simp only [Instr.and]
  exact setcc_write_spec _ _ _ (and_mask_lt _ _)

/-- Not leaves in the condition register the sign of the written value. -/
theorem not_flag (instr : Nat) (r : Registers) :
    (Instr.not instr r).cond =
      (if Nat.testBit ((Instr.not instr r).gp (regSel instr 9)) 15 then Flag.Negative
       else if (Instr.not instr r).gp (regSel instr 9) = 0 then Flag.Zero
       else Flag.Positive) := by
  simp only [Instr.not]
  exact setcc_write_spec _ _ _ (xor_mask_lt _)

/-- Ld leaves in the condition register the sign of the loaded value. -/
theorem ld_flag (instr : Nat) (r : Registers) (m : Nat → Nat) :
    (Instr.ld instr r m).cond =
      (if Nat.testBit ((Instr.ld instr r m).gp (regSel instr 9)) 15 then Flag.Negative
       else if (Instr.ld instr r m).gp (regSel instr 9) = 0 then Flag.Zero
       else Flag.Positive) := by
  simp only [Instr.ld]
  exact setcc_write_spec _ _ _ (Nat.mod_lt _ (by norm_num))

/-- Ldi leaves in the condition register the sign of the loaded value. -/
theorem ldi_flag (instr : Nat) (r : Registers) (m : Nat → Nat) :
    (Instr.ldi instr r m).cond =
      (if Nat.testBit ((Instr.ldi instr r m).gp (regSel instr 9)) 15 then Flag.Negative
       else if (Instr.ldi instr r m).gp (regSel instr 9) = 0 then Flag.Zero
       else Flag.Positive) := by
  simp only [Instr.ldi]
  exact setcc_write_spec _ _ _ (Nat.mod_lt _ (by norm_num))

/-- Ldr leaves in the condition register the sign of the loaded value. -/
theorem ldr_flag (instr : Nat) (r : Registers) (m : Nat → Nat) :
    (Instr.ldr instr r m).cond =
      (if Nat.testBit ((Instr.ldr instr r m).gp (regSel instr 9)) 15 then Flag.Negative
       else if (Instr.ldr instr r m).gp (regSel instr 9) = 0 then Flag.Zero
       else Flag.Positive) := by
  simp only [Instr.ldr]
  exact setcc_write_spec _ _ _ (Nat.mod_lt _ (by norm_num))

/-- Lea leaves in the condition register the sign of the written address. -/
theorem lea_flag (instr : Nat) (r : Registers) :
    (Instr.lea instr r).cond =
      (if Nat.testBit ((Instr.lea instr r).gp (regSel instr 9)) 15 then Flag.Negative
       else if (Instr.lea instr r).gp (regSel instr 9) = 0 then Flag.Zero
       else Flag.Positive) := by
  simp only [Instr.lea]
  exact setcc_write_spec _ _ _ (Nat.mod_lt _ (by norm_num))

/-- Br never touches the condition register. -/
theorem br_cond (instr : Nat) (r : Registers) : (Instr.br instr r).cond = r.cond := by
  simp only [Instr.br]
  split <;> rfl

/-- Jmp never touches the condition register. -/
theorem jmp_cond (instr : Nat) (r : Registers) : (Instr.jmp instr r).cond = r.cond := rfl

/-- Jsr never touches the condition register. -/
theorem jsr_cond (instr : Nat) (r : Registers) : (Instr.jsr instr r).cond = r.cond := rfl

/-- Trap never touches the condition register. -/
theorem trap_cond (instr : Nat) (s : Machine) :
    (Instr.trap instr s).regs.cond = s.regs.cond := by
  simp only [Instr.trap]
  split_ifs <;> rfl

/-- Claim C7: the condition-flag register always holds exactly one of
Negative / Zero / Positive; a flag-setting instruction (Add, And, Not, Ld,
Ldi, Ldr, Lea) leaves in it Negative if the sign bit of the value written to
the destination register is set, Zero if that value is zero and Positive
otherwise, and every other instruction leaves it untouched. -/
theorem flag_update_invariant (instr : Nat) (s : Machine) (op : OpCode)
    (hop : extract_op_code instr = some op) :
    ((execInstr instr s).regs.cond = Flag.Negative ∨
      (execInstr instr s).regs.cond = Flag.Zero ∨
      (execInstr instr s).regs.cond = Flag.Positive) ∧
    (flagSetting op = true →
      (execInstr instr s).regs.cond =
        (if Nat.testBit ((execInstr instr s).regs.gp (regSel instr 9)) 15
          then Flag.Negative
          else if (execInstr instr s).regs.gp (regSel instr 9) = 0 then Flag.Zero
          else Flag.Positive)) ∧
    (flagSetting op = false → (execInstr instr s).regs.cond = s.regs.cond) := by
  cases op
  case Br =>
    have he : execInstr instr s = { s with regs := Instr.br instr s.regs } := by
      unfold execInstr
      rw [hop]
    refine ⟨flag_mem _, fun hf => by simp [flagSetting] at hf, fun _ => ?_⟩
    rw [he]
    exact br_cond instr s.regs
  case Add =>
    have he : execInstr instr s = { s with regs := Instr.add instr s.regs } := by
      unfold execInstr
      rw [hop]
    refine ⟨flag_mem _, fun _ => ?_, fun hf => by simp [flagSetting] at hf⟩
    rw [he]
    exact add_flag instr s.regs
  case Ld =>
    have he : execInstr instr s = { s with regs := Instr.ld instr s.regs s.mem } := by
      unfold execInstr
      rw [hop]
    refine ⟨flag_mem _, fun _ => ?_, fun hf => by simp [flagSetting] at hf⟩
    rw [he]
    exact ld_flag instr s.regs s.mem
  case St =>
    have he : execInstr instr s = { s with mem := Instr.st instr s.regs s.mem } := by
      unfold execInstr
      rw [hop]
    exact ⟨flag_mem _, fun hf => by simp [flagSetting] at hf, fun _ => by rw [he]⟩
  case Jsr =>
    have he : execInstr instr s = { s with regs := Instr.jsr instr s.regs } := by
      unfold execInstr
      rw [hop]
    refine ⟨flag_mem _, fun hf => by simp [flagSetting] at hf, fun _ => ?_⟩
    rw [he]
    exact jsr_cond instr s.regs
  case And =>
    have he : execInstr instr s = { s with regs := Instr.and instr s.regs } := by
      unfold execInstr
      rw [hop]
    refine ⟨flag_mem _, fun _ => ?_, fun hf => by simp [flagSetting] at hf⟩
    rw [he]
    exact and_flag instr s.regs
  case Ldr =>
    have he : execInstr instr s = { s with regs := Instr.ldr instr s.regs s.mem } := by
      unfold execInstr
      rw [hop]
    refine ⟨flag_mem _, fun _ => ?_, fun hf => by simp [flagSetting] at hf⟩
    rw [he]
    exact ldr_flag instr s.regs s.mem
  case Str =>
    have he : execInstr instr s = { s with mem := Instr.str instr s.regs s.mem } := by
      unfold execInstr
      rw [hop]
    exact ⟨flag_mem _, fun hf => by simp [flagSetting] at hf, fun _ => by rw [he]⟩
  case Rti =>
    have he : execInstr instr s = s := by
      unfold execInstr
      rw [hop]
    exact ⟨flag_mem _, fun hf => by simp [flagSetting] at hf, fun _ => by rw [he]⟩
  case Not =>
    have he : execInstr instr s = { s with regs := Instr.not instr s.regs } := by
      unfold execInstr
      rw [hop]
    refine ⟨flag_mem _, fun _ => ?_, fun hf => by simp [flagSetting] at hf⟩
    rw [he]
    exact not_flag instr s.regs
  case Ldi =>
    have he : execInstr instr s = { s with regs := Instr.ldi instr s.regs s.mem } := by
      unfold execInstr
      rw [hop]
    refine ⟨flag_mem _, fun _ => ?_, fun hf => by simp [flagSetting] at hf⟩
    rw [he]
    exact ldi_flag instr s.regs s.mem
  case Sti =>
    have he : execInstr instr s = { s with mem := Instr.sti instr s.regs s.mem } := by
      unfold execInstr
      rw [hop]
    exact ⟨flag_mem _, fun hf => by simp [flagSetting] at hf, fun _ => by rw [he]⟩
  case Jmp =>
    have he : execInstr instr s = { s with regs := Instr.jmp instr s.regs } := by
      unfold execInstr
      rw [hop]
    refine ⟨flag_mem _, fun hf => by simp [flagSetting] at hf, fun _ => ?_⟩
    rw [he]
    exact jmp_cond instr s.regs
  case Res =>
    have he : execInstr instr s = s := by
      unfold execInstr
      rw [hop]
    exact ⟨flag_mem _, fun hf => by simp [flagSetting] at hf, fun _ => by rw [he]⟩
  case Lea =>
    have he : execInstr instr s = { s with regs := Instr.lea instr s.regs } := by
      unfold execInstr
      rw [hop]
    refine ⟨flag_mem _, fun _ => ?_, fun hf => by simp [flagSetting] at hf⟩
    rw [he]
    exact lea_flag instr s.regs
  case Trap =>
    have he : execInstr instr s = Instr.trap instr s := by
      unfold execInstr
      rw [hop]
    refine ⟨flag_mem _, fun hf => by simp [flagSetting] at hf, fun _ => ?_⟩
    rw [he]
    exact trap_cond instr s

/-- Witness for `flag_update_invariant` at the Add-immediate word 4707
(`ADD R1, R1, #3`) on the all-zero machine: the flag reflects the sign of the
written value. -/
theorem flag_update_invariant_witness :
    (execInstr 4707 machine0).regs.cond =
      (if Nat.testBit ((execInstr 4707 machine0).regs.gp (regSel 4707 9)) 15
        then Flag.Negative
        else if (execInstr 4707 machine0).regs.gp (regSel 4707 9) = 0 then Flag.Zero
        else Flag.Positive) :=
  (flag_update_invariant 4707 machine0 OpCode.Add (by decide)).2.1 rfl

end LC4
